import Mathlib

/-!
Verification development for the DataLink repository (`src/generateCsv.py`).

The script generates 1,000,000 synthetic person records and writes them with
Python's `csv.writer` (delimiter `;`, default line terminator `"\r\n"`,
file opened with `newline=''` so no platform translation occurs) to the
file `test_large.csv`, then prints a completion message.

The embedding below models:
  * the process-wide pseudo-random generator as a stream of raw natural
    numbers together with a cursor (`Gen`); `randint a b` consumes one raw
    value and returns `a + raw % (b - a + 1)`, which ranges over exactly
    the closed interval `[a, b]` — so quantifying over all streams
    quantifies over all possible sequences of bounded draws;
  * Python decimal rendering of a nonnegative integer (`natDec`);
  * the proleptic-Gregorian date arithmetic of
    `datetime(2000,1,1) + timedelta(days=off)` (`dateFromOffset`) and the
    `strftime("%Y-%m-%d")` rendering (`strftimeYmd`);
  * the loop body building one record (`genRecord`), the whole loop
    (`genRows`), and `csv.writer`'s `writerow` serialization with its
    minimal-quoting rule (`writerow`);
  * the file system effect of `open(path, 'w')` (`runFS`) and a run with
    possibly failing I/O operations (`runWithFailures`).
-/

namespace DataLink

/-- Decimal digit character for `d < 10`, i.e. `'0'` shifted by `d`. -/
def digitChar (d : Nat) : Char := Char.ofNat (48 + d)

/-- Fuel-driven digit extraction: renders `n` in decimal, most significant
digit first, provided the fuel is positive (the recursion divides by 10
each step, so any fuel above the digit count — in particular `n + 1` —
never runs out). -/
def natDecAux : Nat → Nat → List Char
  | 0, _ => []
  | fuel + 1, n =>
      if n < 10 then [digitChar n]
      else natDecAux fuel (n / 10) ++ [digitChar (n % 10)]

/-- Decimal rendering of a natural number as a list of characters, as
Python's `str`/f-string conversion of a nonnegative `int` produces it:
most significant digit first, no sign, no padding, `0 ↦ "0"`. -/
def natDecList (n : Nat) : List Char := natDecAux (n + 1) n

/-- Decimal rendering of a natural number as a string. -/
def natDec (n : Nat) : String := ⟨natDecList n⟩

/-- Leap-year test of the proleptic Gregorian calendar, as implemented by
Python's `datetime` module. -/
def isLeap (y : Nat) : Bool := (y % 4 == 0 && y % 100 != 0) || y % 400 == 0

/-- Number of days in year `y`. -/
def daysInYear (y : Nat) : Nat := if isLeap y then 366 else 365

/-- Number of days in month `m` of year `y` (months numbered 1–12). -/
def daysInMonth (y m : Nat) : Nat :=
  if m == 2 then (if isLeap y then 29 else 28)
  else if m == 4 || m == 6 || m == 9 || m == 11 then 30
  else 31

/-- Fuel-driven loop peeling whole years off a day offset: starting at year
`y` with `off` days remaining, returns the year the offset lands in and the
0-based day of that year.  The fuel only bounds the iteration count; with
fuel at least `off` it never runs out, because each step consumes at least
365 days of the offset. -/
def yearLoop : Nat → Nat → Nat → Nat × Nat
  | 0, y, off => (y, off)
  | fuel + 1, y, off =>
      if off < daysInYear y then (y, off)
      else yearLoop fuel (y + 1) (off - daysInYear y)

/-- Fuel-driven loop peeling whole months off a 0-based day of year `doy`
starting at month `m`: returns the month and 1-based day of month.  Eleven
units of fuel cover months 1–12. -/
def monthLoop : Nat → Nat → Nat → Nat → Nat × Nat
  | 0, _, m, doy => (m, doy + 1)
  | fuel + 1, y, m, doy =>
      if doy < daysInMonth y m then (m, doy + 1)
      else monthLoop fuel y (m + 1) (doy - daysInMonth y m)

/-- Calendar date `(year, month, day)` of `datetime(2000,1,1) +
timedelta(days=off)` in the proleptic Gregorian calendar. -/
def dateFromOffset (off : Nat) : Nat × Nat × Nat :=
  let yd := yearLoop off 2000 off
  let md := monthLoop 11 yd.1 1 yd.2
  (yd.1, md.1, md.2)

/-- Zero-pad a decimal rendering to width 2, as `strftime`'s `%m`/`%d` do. -/
def pad2 (n : Nat) : String := if n < 10 then "0" ++ natDec n else natDec n

/-- Rendering of a `(year, month, day)` triple by `strftime("%Y-%m-%d")`:
the year (always four digits in this program's range), then zero-padded
two-digit month and day, hyphen-separated. -/
def strftimeYmd (d : Nat × Nat × Nat) : String :=
  natDec d.1 ++ "-" ++ pad2 d.2.1 ++ "-" ++ pad2 d.2.2

/-- State of the process-wide pseudo-random generator: an infinite stream
of raw natural values and a cursor into it.  Quantifying over all streams
captures every possible sequence of draws. -/
structure Gen where
  seq : Nat → Nat
  pos : Nat

/-- Model of `random.randint(a, b)`: consumes the next raw value and maps
it into the closed interval `[a, b]`. -/
def randint (a b : Nat) (g : Gen) : Nat × Gen :=
  (a + g.seq g.pos % (b - a + 1), ⟨g.seq, g.pos + 1⟩)

/-- One iteration of the generation loop of `generateCsv.py`: draws the day
offset and the five field numbers in program order and builds the
six-field row.  The iteration index `i` is in scope in the source (loop
variable) but unused in any value computation. -/
def genRecord (i : Nat) (g : Gen) : List String × Gen :=
  let od := randint 0 8000 g
  let nd := randint 1 1000000 od.2
  let sd := randint 1 1000000 nd.2
  let pd := randint 1 1000000 sd.2
  let cd := randint 1 1000 pd.2
  let kd := randint 1 100 cd.2
  ([strftimeYmd (dateFromOffset od.1),
    "Name" ++ natDec nd.1,
    "Surname" ++ natDec sd.1,
    "Patronymic" ++ natDec pd.1,
    "City" ++ natDec cd.1,
    "Country" ++ natDec kd.1], kd.2)

/-- The whole `for i in range(n)` loop starting at index `i`: the list of
rows in generation order, with the final generator state. -/
def genRowsFrom : Nat → Nat → Gen → List (List String) × Gen
  | 0, _, g => ([], g)
  | n + 1, i, g =>
      let rg := genRecord i g
      let rest := genRowsFrom n (i + 1) rg.2
      (rg.1 :: rest.1, rest.2)

/-- The rows produced by a run of `n` iterations from generator state `g`. -/
def genRows (n : Nat) (g : Gen) : List (List String) := (genRowsFrom n 0 g).1

/-- Quoting test of `csv.writer` with `QUOTE_MINIMAL` (the default): a
field is quoted iff it contains the delimiter `;`, the quote character,
or a CR/LF. -/
def needsQuote (s : String) : Bool :=
  s.data.any (fun c => c == ';' || c == '"' || c == '\r' || c == '\n')

/-- Serialization of one field by `csv.writer`: quoted with inner quotes
doubled when `needsQuote`, verbatim otherwise. -/
def quoteField (s : String) : String :=
  if needsQuote s then
    "\"" ++ ⟨s.data.foldr (fun c acc => if c == '"' then '"' :: '"' :: acc else c :: acc) []⟩ ++ "\""
  else s

/-- Semicolon-join of a list of already-serialized fields. -/
def joinFields : List String → String
  | [] => ""
  | [x] => x
  | x :: xs => x ++ ";" ++ joinFields xs

/-- The logical line `csv.writer.writerow` produces for a row (fields
serialized with minimal quoting, semicolon-joined), without the line
terminator. -/
def serializeRow (row : List String) : String := joinFields (row.map quoteField)

/-- The physical bytes `writerow` appends to the file for one row: the
serialized row followed by the default line terminator `"\r\n"` (the file
is opened with `newline=''`, so no translation occurs). -/
def writerow (row : List String) : String := serializeRow row ++ "\r\n"

/-- The logical output lines of a run of `n` iterations. -/
def outputLines (n : Nat) (g : Gen) : List String := (genRows n g).map serializeRow

/-- The full file content of a run of `n` iterations. -/
def fileContent (n : Nat) (g : Gen) : String := String.join ((genRows n g).map writerow)

/-- Split of a character list at every `;`, yielding the semicolon-separated
fields (an empty list yields one empty field, as the fields of a CSV line
with no quoting are defined). -/
def splitSemi : List Char → List (List Char)
  | [] => [[]]
  | c :: cs =>
      if c = ';' then [] :: splitSemi cs
      else
        match splitSemi cs with
        | [] => [[c]]
        | f :: fs => (c :: f) :: fs

/-- The record count hard-coded in `range(1_000_000)`. -/
def recordCount : Nat := 1000000

/-- The output path hard-coded in the `open` call. -/
def csvPath : String := "test_large.csv"

/-- The completion message printed after the `with` block. -/
def completionMsg : String := "CSV файл создан."

/-- Validity of a `(year, month, day)` triple in the proleptic Gregorian
calendar: month in 1–12 and day in 1 to the length of that month. -/
def validDate (d : Nat × Nat × Nat) : Bool :=
  1 ≤ d.2.1 && d.2.1 ≤ 12 && 1 ≤ d.2.2 && d.2.2 ≤ daysInMonth d.1 d.2.1

/-- Chronological order on `(year, month, day)` triples. -/
def dateLe (a b : Nat × Nat × Nat) : Bool :=
  a.1 < b.1 || (a.1 == b.1 && (a.2.1 < b.2.1 || (a.2.1 == b.2.1 && a.2.2 ≤ b.2.2)))

/-- Decider for the regular expression `^\d\x7b4\x7d-\d\x7b2\x7d-\d\x7b2\x7d$`:
exactly ten characters, digits except for hyphens at positions 5 and 8. -/
def isDateFormat (s : String) : Bool :=
  match s.data with
  | [a, b, c, d, h1, e, f, h2, g, k] =>
      a.isDigit && b.isDigit && c.isDigit && d.isDigit && h1 == '-' &&
      e.isDigit && f.isDigit && h2 == '-' && g.isDigit && k.isDigit
  | _ => false

/-- Total number of days in the `k` consecutive years starting at year `y`. -/
def sumYears : Nat → Nat → Nat
  | _, 0 => 0
  | y, k + 1 => daysInYear y + sumYears (y + 1) k

/-- Total number of days in the `j` consecutive months of year `y` starting
at month `m`. -/
def sumMonths (y : Nat) : Nat → Nat → Nat
  | _, 0 => 0
  | m, j + 1 => daysInMonth y m + sumMonths y (m + 1) j

/-- Strip a leading character sequence: `stripLead p l` returns the rest of
`l` after the leading occurrence of `p`, or `none` when `l` does not start
with `p`. -/
def stripLead : List Char → List Char → Option (List Char)
  | [], rest => some rest
  | _ :: _, [] => none
  | c :: cs, d :: ds => if c = d then stripLead cs ds else none

/-- Decider for the regular expression `^P\d+$` for a literal string `P`:
the field starts with `P` and continues with one or more digits. -/
def fieldMatches (p s : String) : Bool :=
  match stripLead p.data s.data with
  | none => false
  | some rest => !rest.isEmpty && rest.all Char.isDigit

/-- Test that a physical line consists of CR/LF-free text terminated by the
two-character sequence `"\r\n"`. -/
def crlfTerminated (l : List Char) : Bool :=
  match l.reverse with
  | nl :: cr :: rest =>
      nl == '\n' && cr == '\r' && rest.all (fun c => !(c == '\r') && !(c == '\n'))
  | _ => false

/-- Effect of one run on a file system (modelled as a map from path to
content): `open(csvPath, 'w')` truncates whatever was there, and the run
leaves the file holding exactly this run's content; all other paths keep
their previous content. -/
def runFS (n : Nat) (g : Gen) (fs : String → Option String) : String → Option String :=
  fun p => if p = csvPath then some (fileContent n g) else fs p

/-- The write loop of the script in an environment where the `k`-th row
write may raise an I/O error (`ok k = false`): rows accumulate into the
file until the first failing write, which aborts the loop (the exception
propagates out of the `with` block).  Returns the file content left on
disk and whether the loop completed. -/
def writeLoop (ok : Nat → Bool) : Nat → Nat → Gen → String → String × Bool
  | 0, _, _, acc => (acc, true)
  | n + 1, i, g, acc =>
      if ok i then
        writeLoop ok n (i + 1) (genRecord i g).2 (acc ++ writerow (genRecord i g).1)
      else (acc, false)

/-- A whole run in an environment where the `open` call and each row write
may fail: returns the file content left on disk (`none` when the open
itself failed, so no file was created) and the list of lines printed to
standard output.  The completion message is printed only after the `with`
block exits normally; an I/O error propagates past the `print`. -/
def runWithFailures (openOk : Bool) (ok : Nat → Bool) (n : Nat) (g : Gen) :
    Option String × List String :=
  if openOk then
    let r := writeLoop ok n 0 g ""
    (some r.1, if r.2 then [completionMsg] else [])
  else (none, [])

/-- Model of `random.randint(a, b)` with its error condition made explicit:
Python raises `ValueError` when the range is empty (`b < a`). -/
def randintChecked (a b : Nat) (g : Gen) : Option (Nat × Gen) :=
  if b < a then none else some (randint a b g)

/-- Model of `datetime(2000,1,1) + timedelta(days=off)` with its error
condition made explicit: Python raises `OverflowError` when the result
falls outside `datetime`'s supported years (at most 9999). -/
def dateAddChecked (off : Nat) : Option (Nat × Nat × Nat) :=
  if (dateFromOffset off).1 ≤ 9999 then some (dateFromOffset off) else none

/-- The loop body with every fallible operation routed through its checked
variant: any `ValueError` or `OverflowError` yields `none`. -/
def genRecordChecked (i : Nat) (g : Gen) : Option (List String × Gen) :=
  (randintChecked 0 8000 g).bind fun od =>
  (dateAddChecked od.1).bind fun dt =>
  (randintChecked 1 1000000 od.2).bind fun nd =>
  (randintChecked 1 1000000 nd.2).bind fun sd =>
  (randintChecked 1 1000000 sd.2).bind fun pd =>
  (randintChecked 1 1000 pd.2).bind fun cd =>
  (randintChecked 1 100 cd.2).bind fun kd =>
  some ([strftimeYmd dt,
    "Name" ++ natDec nd.1,
    "Surname" ++ natDec sd.1,
    "Patronymic" ++ natDec pd.1,
    "City" ++ natDec cd.1,
    "Country" ++ natDec kd.1], kd.2)

/-- Benign characters: every character this program can put inside a field
is a decimal digit, an ASCII letter, or a hyphen. -/
def benign (c : Char) : Bool := c.isDigit || c.isAlpha || c == '-'

/-- Mocked random source for the example scenario of the specification: raw
value 0 for the first draw (so the day offset is 0) and raw value 41 for
every later draw (so every bounded draw `randint 1 b` yields 1 + 41 % b =
42, as all those bounds exceed 41). -/
def mock42 : Gen := ⟨fun k => if k = 0 then 0 else 41, 0⟩

/-- A string all of whose characters are benign. -/
@[reducible] def AllBenign (s : String) : Prop := ∀ c ∈ s.data, benign c = true

theorem benign_not_bad {c : Char} (h : benign c = true) :
    (c == ';' || c == '"' || c == '\r' || c == '\n') = false := by
  refine Bool.eq_false_iff.mpr fun hb => ?_
  simp only [Bool.or_eq_true, beq_iff_eq] at hb
  rcases hb with ((rfl | rfl) | rfl) | rfl <;> exact absurd h (by decide)

theorem benign_of_isDigit {c : Char} (h : c.isDigit = true) : benign c = true := by
  simp [benign, h]

theorem digitChar_isDigit {d : Nat} (h : d < 10) : (digitChar d).isDigit = true := by
  interval_cases d <;> decide

theorem natDecAux_digits (fuel : Nat) : ∀ n, ∀ c ∈ natDecAux fuel n, c.isDigit = true := by
  induction fuel with
  | zero => intro n c hc; simp [natDecAux] at hc
  | succ fuel ih =>
      intro n c hc
      rw [natDecAux] at hc
      split at hc
      · next h =>
          rw [List.mem_singleton] at hc
          exact hc ▸ digitChar_isDigit h
      · rw [List.mem_append, List.mem_singleton] at hc
        rcases hc with hc | hc
        · exact ih _ c hc
        · exact hc ▸ digitChar_isDigit (Nat.mod_lt _ (by omega))

theorem natDecList_digits {n : Nat} : ∀ c ∈ natDecList n, c.isDigit = true :=
  natDecAux_digits _ _

theorem natDecList_ne_nil (n : Nat) : natDecList n ≠ [] := by
  rw [natDecList, natDecAux]
  split <;> simp

theorem allBenign_natDec (n : Nat) : AllBenign (natDec n) := fun c hc =>
  benign_of_isDigit (natDecList_digits c hc)

theorem allBenign_append {s t : String} (hs : AllBenign s) (ht : AllBenign t) :
    AllBenign (s ++ t) := by
  intro c hc
  rw [String.data_append, List.mem_append] at hc
  exact hc.elim (hs c) (ht c)

theorem allBenign_pad2 (n : Nat) : AllBenign (pad2 n) := by
  unfold pad2
  split
  · exact allBenign_append (by decide) (allBenign_natDec n)
  · exact allBenign_natDec n

theorem allBenign_date (d : Nat × Nat × Nat) : AllBenign (strftimeYmd d) :=
  allBenign_append
    (allBenign_append
      (allBenign_append (allBenign_append (allBenign_natDec _) (by decide))
        (allBenign_pad2 _)) (by decide))
    (allBenign_pad2 _)

theorem allBenign_no_semi {s : String} (h : AllBenign s) : ∀ c ∈ s.data, c ≠ ';' :=
  fun c hc heq => absurd (heq ▸ h c hc) (by decide)

theorem needsQuote_eq_false {s : String} (h : AllBenign s) : needsQuote s = false := by
  refine Bool.eq_false_iff.mpr fun hq => ?_
  obtain ⟨c, hc, hbad⟩ := List.any_eq_true.mp hq
  rw [benign_not_bad (h c hc)] at hbad
  exact Bool.false_ne_true hbad

theorem quoteField_eq_self {s : String} (h : needsQuote s = false) : quoteField s = s := by
  simp [quoteField, h]

theorem splitSemi_no_semi : ∀ l : List Char, (∀ c ∈ l, c ≠ ';') → splitSemi l = [l] := by
  intro l
  induction l with
  | nil => intro _; rfl
  | cons c cs ih =>
      intro h
      have hc : c ≠ ';' := h c (List.mem_cons_self c cs)
      rw [splitSemi, if_neg hc, ih (fun d hd => h d (List.mem_cons_of_mem _ hd))]

theorem splitSemi_append : ∀ a rest : List Char, (∀ c ∈ a, c ≠ ';') →
    splitSemi (a ++ ';' :: rest) = a :: splitSemi rest := by
  intro a
  induction a with
  | nil => intro rest _; simp [splitSemi]
  | cons c cs ih =>
      intro rest h
      have hc : c ≠ ';' := h c (List.mem_cons_self c cs)
      rw [List.cons_append, splitSemi, if_neg hc,
        ih rest (fun d hd => h d (List.mem_cons_of_mem _ hd))]

theorem joinFields_cons_cons (x y : String) (rest : List String) :
    (joinFields (x :: y :: rest)).data = x.data ++ ';' :: (joinFields (y :: rest)).data := by
  show ((x ++ ";") ++ joinFields (y :: rest)).data = _
  simp [String.data_append]

theorem splitSemi_joinFields : ∀ rows : List String,
    rows ≠ [] → (∀ f ∈ rows, ∀ c ∈ f.data, c ≠ ';') →
    splitSemi (joinFields rows).data = rows.map String.data := by
  intro rows
  induction rows with
  | nil => intro h _; exact absurd rfl h
  | cons x xs ih =>
      intro _ h
      cases xs with
      | nil =>
          show splitSemi x.data = [x.data]
          exact splitSemi_no_semi _ (h x (List.mem_cons_self x []))
      | cons y rest =>
          rw [joinFields_cons_cons,
            splitSemi_append _ _ (h x (List.mem_cons_self x (y :: rest))),
            ih (by simp) (fun f hf => h f (List.mem_cons_of_mem _ hf))]
          rfl

theorem daysInYear_ge (y : Nat) : 365 ≤ daysInYear y := by
  unfold daysInYear; split <;> omega

theorem daysInMonth_le (y m : Nat) : daysInMonth y m ≤ 31 := by
  unfold daysInMonth
  split
  · split <;> omega
  · split <;> omega

theorem sumMonths_year (y : Nat) : sumMonths y 1 12 = daysInYear y := by
  cases h : isLeap y <;> simp [sumMonths, daysInMonth, daysInYear, h]

theorem sumYears_mono (d : Nat) : ∀ k y, sumYears y k ≤ sumYears y (k + d) := by
  intro k
  induction k with
  | zero => intro y; exact Nat.zero_le _
  | succ k ih =>
      intro y
      have he : k + 1 + d = (k + d) + 1 := by omega
      rw [he]
      simp only [sumYears]
      exact Nat.add_le_add_left (ih (y + 1)) _

theorem yearLoop_spec : ∀ fuel y off, off < 365 * (fuel + 1) →
    ∃ k, (yearLoop fuel y off).1 = y + k ∧
      sumYears y k + (yearLoop fuel y off).2 = off ∧
      (yearLoop fuel y off).2 < daysInYear (yearLoop fuel y off).1 := by
  intro fuel
  induction fuel with
  | zero =>
      intro y off hoff
      refine ⟨0, by simp [yearLoop], by simp [yearLoop, sumYears], ?_⟩
      have := daysInYear_ge y
      simp only [yearLoop]
      omega
  | succ fuel ih =>
      intro y off hoff
      rw [yearLoop]
      by_cases h : off < daysInYear y
      · rw [if_pos h]
        exact ⟨0, rfl, by simp [sumYears], h⟩
      · rw [if_neg h]
        have hdy := daysInYear_ge y
        obtain ⟨k, h1, h2, h3⟩ := ih (y + 1) (off - daysInYear y) (by omega)
        refine ⟨k + 1, by rw [h1]; omega, ?_, h3⟩
        simp only [sumYears]
        omega

theorem monthLoop_spec : ∀ fuel y m doy, doy < sumMonths y m (fuel + 1) →
    ∃ j, j ≤ fuel ∧ (monthLoop fuel y m doy).1 = m + j ∧
      sumMonths y m j ≤ doy ∧
      (monthLoop fuel y m doy).2 = doy - sumMonths y m j + 1 ∧
      doy - sumMonths y m j < daysInMonth y (m + j) := by
  intro fuel
  induction fuel with
  | zero =>
      intro y m doy h
      simp only [sumMonths] at h
      exact ⟨0, Nat.le_refl 0, rfl, by simp [sumMonths],
        by simp [monthLoop, sumMonths], by simp [sumMonths]; omega⟩
  | succ fuel ih =>
      intro y m doy h
      rw [monthLoop]
      by_cases h0 : doy < daysInMonth y m
      · rw [if_pos h0]
        exact ⟨0, Nat.zero_le _, rfl, by simp [sumMonths],
          by simp [sumMonths], by simp [sumMonths]; omega⟩
      · rw [if_neg h0]
        have hrec : doy - daysInMonth y m < sumMonths y (m + 1) (fuel + 1) := by
          simp only [sumMonths] at h ⊢
          omega
        obtain ⟨j, hj, h1, h2, h3, h4⟩ := ih y (m + 1) (doy - daysInMonth y m) hrec
        refine ⟨j + 1, by omega, by rw [h1]; omega, ?_, ?_, ?_⟩
        · simp only [sumMonths]; omega
        · rw [h3]; simp only [sumMonths]; omega
        · simp only [sumMonths]
          have : m + 1 + j = m + (j + 1) := by omega
          rw [this] at h4
          omega

theorem dateFromOffset_char (off : Nat) :
    ∃ k j,
      (dateFromOffset off).1 = 2000 + k ∧
      (dateFromOffset off).2.1 = 1 + j ∧ j ≤ 11 ∧
      sumYears 2000 k ≤ off ∧
      off - sumYears 2000 k < daysInYear (2000 + k) ∧
      sumMonths (2000 + k) 1 j ≤ off - sumYears 2000 k ∧
      (dateFromOffset off).2.2 =
        (off - sumYears 2000 k) - sumMonths (2000 + k) 1 j + 1 ∧
      (off - sumYears 2000 k) - sumMonths (2000 + k) 1 j <
        daysInMonth (2000 + k) (1 + j) := by
  obtain ⟨k, hy, hsum, hdoy⟩ := yearLoop_spec off 2000 off (by omega)
  have hylt : (yearLoop off 2000 off).2 < sumMonths (yearLoop off 2000 off).1 1 12 := by
    rw [sumMonths_year]; exact hdoy
  obtain ⟨j, hj, hm, hms, hd, hdm⟩ :=
    monthLoop_spec 11 (yearLoop off 2000 off).1 1 (yearLoop off 2000 off).2 hylt
  have hdoy2 : (yearLoop off 2000 off).2 = off - sumYears 2000 k := by omega
  refine ⟨k, j, hy, ?_, hj, by omega, ?_, ?_, ?_, ?_⟩
  · show (monthLoop 11 (yearLoop off 2000 off).1 1 (yearLoop off 2000 off).2).1 = 1 + j
    exact hm
  · rw [← hy, ← hdoy2]; exact hdoy
  · rw [← hy, ← hdoy2]; exact hms
  · show (monthLoop 11 (yearLoop off 2000 off).1 1 (yearLoop off 2000 off).2).2 = _
    rw [hd, hdoy2, hy]
  · rw [← hy, ← hdoy2]; exact hdm

theorem dateLe_intro (y1 m1 d1 y2 m2 d2 : Nat)
    (h : y1 < y2 ∨ (y1 = y2 ∧ (m1 < m2 ∨ (m1 = m2 ∧ d1 ≤ d2)))) :
    dateLe (y1, m1, d1) (y2, m2, d2) = true := by
  unfold dateLe
  rcases h with h | ⟨rfl, h | ⟨rfl, h⟩⟩
  · simp [h]
  · simp [h]
  · simp [h]

theorem validDate_intro (y m d : Nat) (h1 : 1 ≤ m) (h2 : m ≤ 12) (h3 : 1 ≤ d)
    (h4 : d ≤ daysInMonth y m) : validDate (y, m, d) = true := by
  simp [validDate, h1, h2, h3, h4]

theorem dateProps (off : Nat) :
    validDate (dateFromOffset off) = true ∧
    dateLe (2000, 1, 1) (dateFromOffset off) = true ∧
    2000 ≤ (dateFromOffset off).1 ∧
    1 ≤ (dateFromOffset off).2.1 ∧ (dateFromOffset off).2.1 ≤ 12 ∧
    1 ≤ (dateFromOffset off).2.2 ∧ (dateFromOffset off).2.2 ≤ 31 ∧
    (off ≤ 8000 →
      (dateFromOffset off).1 ≤ 2021 ∧
      dateLe (dateFromOffset off) (2021, 11, 26) = true) := by
  obtain ⟨k, j, h1, h2, hj, h4, h5, h6, h7, h8⟩ := dateFromOffset_char off
  have hdim := daysInMonth_le (2000 + k) (1 + j)
  have hvalid : validDate (dateFromOffset off) = true := by
    have := validDate_intro (dateFromOffset off).1 (dateFromOffset off).2.1
      (dateFromOffset off).2.2 (by omega) (by omega) (by omega)
      (by rw [h1, h2, h7]; omega)
    exact this
  refine ⟨hvalid,
    dateLe_intro 2000 1 1 (dateFromOffset off).1 (dateFromOffset off).2.1
      (dateFromOffset off).2.2 (by omega),
    by omega, by omega, by omega, by omega, by omega, ?_⟩
  intro hoff
  have hk21 : k ≤ 21 := by
    by_contra hk
    push_neg at hk
    have hmono := sumYears_mono (k - 22) 22 2000
    have he : 22 + (k - 22) = k := by omega
    rw [he] at hmono
    have hc : sumYears 2000 22 = 8036 := by decide
    omega
  refine ⟨by omega, ?_⟩
  by_cases hk20 : k ≤ 20
  · exact dateLe_intro (dateFromOffset off).1 (dateFromOffset off).2.1
      (dateFromOffset off).2.2 2021 11 26 (by omega)
  · have hk : k = 21 := by omega
    subst hk
    have hsy : sumYears 2000 21 = 7671 := by decide
    have h21 : (2000 : Nat) + 21 = 2021 := by norm_num
    rw [h21] at h1 h5 h6 h7 h8
    by_cases hj9 : j ≤ 9
    · exact dateLe_intro (dateFromOffset off).1 (dateFromOffset off).2.1
        (dateFromOffset off).2.2 2021 11 26 (by omega)
    · have hj1011 : j = 10 ∨ j = 11 := by omega
      rcases hj1011 with rfl | rfl
      · have hsm10 : sumMonths 2021 1 10 = 304 := by decide
        exact dateLe_intro (dateFromOffset off).1 (dateFromOffset off).2.1
          (dateFromOffset off).2.2 2021 11 26 (by omega)
      · have hsm11 : sumMonths 2021 1 11 = 334 := by decide
        exact absurd h6 (by omega)

theorem pad2_digits (n : Nat) : ∀ c ∈ (pad2 n).data, c.isDigit = true := by
  unfold pad2
  split
  · intro c hc
    rw [String.data_append] at hc
    rcases List.mem_append.mp hc with h | h
    · have hc0 : c = '0' := by simpa using h
      subst hc0; decide
    · exact natDecList_digits c h
  · intro c hc
    exact natDecList_digits c hc

theorem pad2_len {n : Nat} (h : n ≤ 31) : ((pad2 n).data).length = 2 := by
  interval_cases n <;> decide

theorem natDec_year_len {y : Nat} (h1 : 2000 ≤ y) (h2 : y ≤ 2021) :
    ((natDec y).data).length = 4 := by
  interval_cases y <;> decide

theorem isDateFormat_of_data {s : String} {l1 l2 l3 : List Char}
    (hs : s.data = l1 ++ '-' :: (l2 ++ '-' :: l3))
    (h1 : l1.length = 4) (h2 : l2.length = 2) (h3 : l3.length = 2)
    (d1 : ∀ c ∈ l1, c.isDigit = true) (d2 : ∀ c ∈ l2, c.isDigit = true)
    (d3 : ∀ c ∈ l3, c.isDigit = true) : isDateFormat s = true := by
  unfold isDateFormat
  rw [hs]
  rcases l1 with _ | ⟨a, _ | ⟨b, _ | ⟨c, _ | ⟨d, _ | ⟨x, t1⟩⟩⟩⟩⟩ <;> simp_all
  rcases l2 with _ | ⟨e, _ | ⟨f, _ | ⟨x, t2⟩⟩⟩ <;> simp_all
  rcases l3 with _ | ⟨g, _ | ⟨k, _ | ⟨x, t3⟩⟩⟩ <;> simp_all

theorem strftimeYmd_data (y m d : Nat) : (strftimeYmd (y, m, d)).data =
    (natDec y).data ++ '-' :: ((pad2 m).data ++ '-' :: (pad2 d).data) := by
  simp [strftimeYmd, String.data_append]

theorem strftimeYmd_format (y m d : Nat) (hy1 : 2000 ≤ y) (hy2 : y ≤ 2021)
    (hm : m ≤ 31) (hd : d ≤ 31) : isDateFormat (strftimeYmd (y, m, d)) = true :=
  isDateFormat_of_data (strftimeYmd_data y m d) (natDec_year_len hy1 hy2)
    (pad2_len hm) (pad2_len hd) (fun c hc => natDecList_digits c hc)
    (pad2_digits m) (pad2_digits d)

theorem randint_ge (a b : Nat) (g : Gen) : a ≤ (randint a b g).1 :=
  Nat.le_add_right a _

theorem randint_le {a b : Nat} (h : a ≤ b) (g : Gen) : (randint a b g).1 ≤ b := by
  have := Nat.mod_lt (g.seq g.pos) (show 0 < b - a + 1 by omega)
  show a + g.seq g.pos % (b - a + 1) ≤ b
  omega

theorem genRecord_shape (i : Nat) (g : Gen) :
    ∃ off n1 n2 n3 n4 n5 : Nat,
      off ≤ 8000 ∧ 1 ≤ n1 ∧ n1 ≤ 1000000 ∧ 1 ≤ n2 ∧ n2 ≤ 1000000 ∧
      1 ≤ n3 ∧ n3 ≤ 1000000 ∧ 1 ≤ n4 ∧ n4 ≤ 1000 ∧ 1 ≤ n5 ∧ n5 ≤ 100 ∧
      (genRecord i g).1 =
        [strftimeYmd (dateFromOffset off), "Name" ++ natDec n1,
         "Surname" ++ natDec n2, "Patronymic" ++ natDec n3,
         "City" ++ natDec n4, "Country" ++ natDec n5] := by
  refine ⟨(randint 0 8000 g).1,
    (randint 1 1000000 (randint 0 8000 g).2).1,
    (randint 1 1000000 (randint 1 1000000 (randint 0 8000 g).2).2).1,
    (randint 1 1000000 (randint 1 1000000 (randint 1 1000000 (randint 0 8000 g).2).2).2).1,
    (randint 1 1000 (randint 1 1000000 (randint 1 1000000 (randint 1 1000000 (randint 0 8000 g).2).2).2).2).1,
    (randint 1 100 (randint 1 1000 (randint 1 1000000 (randint 1 1000000 (randint 1 1000000 (randint 0 8000 g).2).2).2).2).2).1,
    randint_le (by omega) g,
    randint_ge 1 1000000 _, randint_le (by omega) _,
    randint_ge 1 1000000 _, randint_le (by omega) _,
    randint_ge 1 1000000 _, randint_le (by omega) _,
    randint_ge 1 1000 _, randint_le (by omega) _,
    randint_ge 1 100 _, randint_le (by omega) _, rfl⟩

theorem genRecord_fields_benign (i : Nat) (g : Gen) :
    ∀ f ∈ (genRecord i g).1, AllBenign f := by
  obtain ⟨off, n1, n2, n3, n4, n5, _, _, _, _, _, _, _, _, _, _, _, hrow⟩ :=
    genRecord_shape i g
  rw [hrow]
  intro f hf
  simp only [List.mem_cons, List.not_mem_nil, or_false] at hf
  rcases hf with rfl | rfl | rfl | rfl | rfl | rfl
  · exact allBenign_date _
  · exact allBenign_append (by decide) (allBenign_natDec _)
  · exact allBenign_append (by decide) (allBenign_natDec _)
  · exact allBenign_append (by decide) (allBenign_natDec _)
  · exact allBenign_append (by decide) (allBenign_natDec _)
  · exact allBenign_append (by decide) (allBenign_natDec _)

theorem genRecord_length (i : Nat) (g : Gen) : (genRecord i g).1.length = 6 := rfl

theorem genRowsFrom_length : ∀ n i g, (genRowsFrom n i g).1.length = n := by
  intro n
  induction n with
  | zero => intro i g; rfl
  | succ n ih => intro i g; simp [genRowsFrom, ih]

theorem genRowsFrom_mem : ∀ n i g row, row ∈ (genRowsFrom n i g).1 →
    ∃ j g2, row = (genRecord j g2).1 := by
  intro n
  induction n with
  | zero => intro i g row h; simp [genRowsFrom] at h
  | succ n ih =>
      intro i g row h
      simp only [genRowsFrom, List.mem_cons] at h
      rcases h with rfl | h
      · exact ⟨i, g, rfl⟩
      · exact ih (i + 1) (genRecord i g).2 row h

theorem map_quoteField_eq : ∀ row : List String, (∀ f ∈ row, AllBenign f) →
    row.map quoteField = row := by
  intro row
  induction row with
  | nil => intro _; rfl
  | cons x xs ih =>
      intro h
      rw [List.map_cons,
        quoteField_eq_self (needsQuote_eq_false (h x (List.mem_cons_self x xs))),
        ih (fun f hf => h f (List.mem_cons_of_mem _ hf))]

theorem serializeRow_eq_joinFields {row : List String} (h : ∀ f ∈ row, AllBenign f) :
    serializeRow row = joinFields row := by
  rw [serializeRow, map_quoteField_eq row h]

theorem splitSemi_serializeRow {row : List String} (hne : row ≠ [])
    (h : ∀ f ∈ row, AllBenign f) :
    splitSemi (serializeRow row).data = row.map String.data := by
  rw [serializeRow_eq_joinFields h]
  exact splitSemi_joinFields row hne (fun f hf => allBenign_no_semi (h f hf))

theorem joinFields_chars (P : Char → Prop) : ∀ rows : List String,
    (∀ f ∈ rows, ∀ c ∈ f.data, P c) → P ';' → ∀ c ∈ (joinFields rows).data, P c := by
  intro rows
  induction rows with
  | nil => intro _ _ c hc; exact absurd hc (List.not_mem_nil c)
  | cons x xs ih =>
      intro h hsemi c hc
      cases xs with
      | nil => exact h x (List.mem_cons_self x []) c hc
      | cons y rest =>
          rw [joinFields_cons_cons, List.mem_append, List.mem_cons] at hc
          rcases hc with hc | hc | hc
          · exact h x (List.mem_cons_self x (y :: rest)) c hc
          · exact hc ▸ hsemi
          · exact ih (fun f hf => h f (List.mem_cons_of_mem _ hf)) hsemi c hc

theorem benign_notCRLF {c : Char} (h : benign c = true) :
    (!(c == '\r') && !(c == '\n')) = true := by
  cases hr : c == '\r'
  · cases hn : c == '\n'
    · simp [hr, hn]
    · rw [beq_iff_eq] at hn
      subst hn
      exact absurd h (by decide)
  · rw [beq_iff_eq] at hr
    subst hr
    exact absurd h (by decide)

theorem crlfTerminated_append (body : List Char)
    (hb : ∀ c ∈ body, (!(c == '\r') && !(c == '\n')) = true) :
    crlfTerminated (body ++ ['\r', '\n']) = true := by
  unfold crlfTerminated
  rw [List.reverse_append]
  simp only [List.reverse_cons, List.reverse_nil, List.nil_append, List.cons_append,
    beq_self_eq_true, Bool.true_and, List.all_reverse]
  exact List.all_eq_true.mpr hb

theorem crlfTerminated_writerow {row : List String} (h : ∀ f ∈ row, AllBenign f) :
    crlfTerminated (writerow row).data = true := by
  have hall : ∀ c ∈ (joinFields row).data, (!(c == '\r') && !(c == '\n')) = true :=
    joinFields_chars _ row (fun f hf c hc => benign_notCRLF (h f hf c hc)) (by decide)
  have hdata : (writerow row).data = (joinFields row).data ++ ['\r', '\n'] := by
    rw [writerow, serializeRow_eq_joinFields h, String.data_append]
  rw [hdata]
  exact crlfTerminated_append _ hall

theorem stripLead_of_append : ∀ p r : List Char, stripLead p (p ++ r) = some r := by
  intro p
  induction p with
  | nil => intro r; rfl
  | cons c cs ih => intro r; simp [stripLead, ih]

theorem fieldMatches_append_nat (p : String) (n : Nat) :
    fieldMatches p (p ++ natDec n) = true := by
  unfold fieldMatches
  rw [String.data_append, show (natDec n).data = natDecList n from rfl,
    stripLead_of_append]
  rw [Bool.and_eq_true]
  constructor
  · simp [List.isEmpty_iff, natDecList_ne_nil n]
  · exact List.all_eq_true.mpr natDecList_digits

theorem benign_sep_chars {c : Char} (h : benign c = true) :
    (!(c == ';') && !(c == '\n') && !(c == '\r')) = true := by
  cases hs : c == ';'
  · cases hn : c == '\n'
    · cases hr : c == '\r'
      · simp [hs, hn, hr]
      · rw [beq_iff_eq] at hr
        subst hr
        exact absurd h (by decide)
    · rw [beq_iff_eq] at hn
      subst hn
      exact absurd h (by decide)
  · rw [beq_iff_eq] at hs
    subst hs
    exact absurd h (by decide)

theorem writeLoop_snd (ok : Nat → Bool) : ∀ n i g acc,
    ((writeLoop ok n i g acc).2 = true ↔ ∀ k, k < n → ok (i + k) = true) := by
  intro n
  induction n with
  | zero =>
      intro i g acc
      simp [writeLoop]
  | succ n ih =>
      intro i g acc
      rw [writeLoop]
      by_cases h : ok i = true
      · rw [if_pos h, ih]
        constructor
        · intro hall k hk
          cases k with
          | zero => simpa using h
          | succ k =>
              have := hall k (by omega)
              have he : i + 1 + k = i + (k + 1) := by omega
              rw [he] at this
              exact this
        · intro hall k hk
          have := hall (k + 1) (by omega)
          have he : i + (k + 1) = i + 1 + k := by omega
          rw [he] at this
          exact this
      · rw [if_neg h]
        constructor
        · intro hf; exact absurd hf (by simp)
        · intro hall
          have := hall 0 (by omega)
          rw [Nat.add_zero] at this
          exact absurd this h

/-- C1: for every run with configured record count `n` (in particular the
reference `recordCount = 1000000`) and every possible sequence of random
draws, the output contains exactly `n` logical lines, and every line splits
at the semicolon delimiter into exactly 6 fields. -/
theorem claim_C1_row_count (n : Nat) (g : Gen) :
    (outputLines n g).length = n ∧
    (outputLines recordCount g).length = recordCount ∧
    ((outputLines n g).all fun l => (splitSemi l.data).length == 6) = true := by
  refine ⟨?_, ?_, ?_⟩
  · rw [outputLines, genRows, List.length_map, genRowsFrom_length]
  · rw [outputLines, genRows, List.length_map, genRowsFrom_length]
  · refine List.all_eq_true.mpr fun l hl => ?_
    rw [outputLines, genRows] at hl
    obtain ⟨row, hrow, rfl⟩ := List.mem_map.mp hl
    obtain ⟨j, g2, rfl⟩ := genRowsFrom_mem n 0 g row hrow
    rw [beq_iff_eq,
      splitSemi_serializeRow
        (by
          intro he
          have hlen := genRecord_length j g2
          rw [he] at hlen
          simp at hlen)
        (genRecord_fields_benign j g2),
      List.length_map, genRecord_length]

/-- C3: in every generated record, fields 2 through 6 are the fixed
prefixes `Name`, `Surname`, `Patronymic`, `City`, `Country` followed by the
decimal rendering of an integer drawn from [1,1000000], [1,1000000],
[1,1000000], [1,1000], [1,100] respectively, and each matches the
corresponding pattern `^P\d+$`. -/
theorem claim_C3_fields (i : Nat) (g : Gen) :
    ∃ n1 n2 n3 n4 n5 : Nat,
      1 ≤ n1 ∧ n1 ≤ 1000000 ∧ 1 ≤ n2 ∧ n2 ≤ 1000000 ∧ 1 ≤ n3 ∧ n3 ≤ 1000000 ∧
      1 ≤ n4 ∧ n4 ≤ 1000 ∧ 1 ≤ n5 ∧ n5 ≤ 100 ∧
      (genRecord i g).1.drop 1 =
        ["Name" ++ natDec n1, "Surname" ++ natDec n2, "Patronymic" ++ natDec n3,
         "City" ++ natDec n4, "Country" ++ natDec n5] ∧
      fieldMatches "Name" ("Name" ++ natDec n1) = true ∧
      fieldMatches "Surname" ("Surname" ++ natDec n2) = true ∧
      fieldMatches "Patronymic" ("Patronymic" ++ natDec n3) = true ∧
      fieldMatches "City" ("City" ++ natDec n4) = true ∧
      fieldMatches "Country" ("Country" ++ natDec n5) = true := by
  obtain ⟨off, n1, n2, n3, n4, n5, _, b1, b2, b3, b4, b5, b6, b7, b8, b9, b10, hrow⟩ :=
    genRecord_shape i g
  exact ⟨n1, n2, n3, n4, n5, b1, b2, b3, b4, b5, b6, b7, b8, b9, b10,
    by rw [hrow]; rfl, fieldMatches_append_nat _ _, fieldMatches_append_nat _ _,
    fieldMatches_append_nat _ _, fieldMatches_append_nat _ _,
    fieldMatches_append_nat _ _⟩

/-- C5: under every possible sequence of random draws no generated field
value contains the semicolon delimiter, a newline, or a carriage return, so
`csv.writer` never quotes any field and each serialized line is the plain
semicolon-join of the six field strings. -/
theorem claim_C5_no_quoting (i : Nat) (g : Gen) :
    ((genRecord i g).1.all fun f =>
      f.data.all fun c => !(c == ';') && !(c == '\n') && !(c == '\r')) = true ∧
    ((genRecord i g).1.all fun f => !needsQuote f) = true ∧
    serializeRow (genRecord i g).1 = joinFields (genRecord i g).1 ∧
    writerow (genRecord i g).1 = joinFields (genRecord i g).1 ++ "\r\n" := by
  have hben := genRecord_fields_benign i g
  refine ⟨?_, ?_, serializeRow_eq_joinFields hben, ?_⟩
  · refine List.all_eq_true.mpr fun f hf => List.all_eq_true.mpr fun c hc => ?_
    exact benign_sep_chars (hben f hf c hc)
  · refine List.all_eq_true.mpr fun f hf => ?_
    rw [needsQuote_eq_false (hben f hf)]
    rfl
  · rw [writerow, serializeRow_eq_joinFields hben]

/-- C8: the generated values are independent of the iteration index: from
the same random-generator state, any two iteration indices produce exactly
the same record and successor state. -/
theorem claim_C8_index_independent (i j : Nat) (g : Gen) :
    genRecord i g = genRecord j g := rfl

/-- C9: record generation has no error conditions: with every fallible
operation (bounded draw, date arithmetic, formatting) routed through its
checked variant, generation still succeeds for every random state and
returns exactly the unchecked record. -/
theorem claim_C9_total (i : Nat) (g : Gen) :
    genRecordChecked i g = some (genRecord i g) := by
  have hoff : (randint 0 8000 g).1 ≤ 8000 := randint_le (by omega) g
  have hyear : (dateFromOffset (randint 0 8000 g).1).1 ≤ 9999 := by
    have h := (dateProps (randint 0 8000 g).1).2.2.2.2.2.2.2 hoff
    omega
  simp [genRecordChecked, randintChecked, dateAddChecked, hyear, genRecord]

/-- C10: every physical row appended to the file is CR/LF-free text
terminated by the two-character sequence CRLF, for every record count and
every possible sequence of random draws. -/
theorem claim_C10_crlf (n : Nat) (g : Gen) :
    (((genRows n g).map writerow).all fun pl => crlfTerminated pl.data) = true := by
  refine List.all_eq_true.mpr fun pl hpl => ?_
  obtain ⟨row, hrow, rfl⟩ := List.mem_map.mp hpl
  obtain ⟨j, g2, rfl⟩ := genRowsFrom_mem n 0 g row hrow
  exact crlfTerminated_writerow (genRecord_fields_benign j g2)

/-- C2 counterexample: the day-offset draw can yield 8000, and the epoch
2000-01-01 plus 8000 days is 2021-11-26, which lies strictly after the
claimed upper bound 2021-11-17 — so the claimed range [2000-01-01,
2021-11-17] does not hold for every possible offset. -/
theorem claim_C2_counterexample :
    (genRecord 0 ⟨fun _ => 8000, 0⟩).1.head? = some "2021-11-26" ∧
    dateFromOffset 8000 = (2021, 11, 26) ∧
    dateLe (dateFromOffset 8000) (2021, 11, 17) = false := by decide

/-- C2 (amended): the first field of every generated record renders the
epoch 2000-01-01 plus a whole-day offset of at most 8000 days; and for
every such offset the rendered string matches `^\d\x7b4\x7d-\d\x7b2\x7d-\d\x7b2\x7d$`,
denotes a valid calendar date, and that date lies within [2000-01-01,
2021-11-26] inclusive. -/
theorem claim_C2_date_range :
    (∀ i g, ∃ off, off ≤ 8000 ∧
      (genRecord i g).1.head? = some (strftimeYmd (dateFromOffset off))) ∧
    (∀ off, off ≤ 8000 →
      isDateFormat (strftimeYmd (dateFromOffset off)) = true ∧
      validDate (dateFromOffset off) = true ∧
      dateLe (2000, 1, 1) (dateFromOffset off) = true ∧
      dateLe (dateFromOffset off) (2021, 11, 26) = true) := by
  constructor
  · intro i g
    exact ⟨(randint 0 8000 g).1, randint_le (by omega) g, rfl⟩
  · intro off hoff
    obtain ⟨hv, hge, hy2000, hm1, hm12, hd1, hd31, himp⟩ := dateProps off
    obtain ⟨hy21, hle⟩ := himp hoff
    exact ⟨strftimeYmd_format (dateFromOffset off).1 (dateFromOffset off).2.1
      (dateFromOffset off).2.2 hy2000 hy21 (by omega) (by omega), hv, hge, hle⟩

/-- C2 witness: the amended range facts, instantiated at the extreme offset
8000. -/
theorem claim_C2_witness :
    isDateFormat (strftimeYmd (dateFromOffset 8000)) = true ∧
    validDate (dateFromOffset 8000) = true ∧
    dateLe (2000, 1, 1) (dateFromOffset 8000) = true ∧
    dateLe (dateFromOffset 8000) (2021, 11, 26) = true :=
  claim_C2_date_range.2 8000 (by omega)

/-- C4: with one record and the mocked random source (day offset 0, every
bounded draw 42), the single output line is exactly the specified string;
the six draws of the run are 0, 42, 42, 42, 42, 42. -/
theorem claim_C4_example :
    outputLines 1 mock42 =
      ["2000-01-01;Name42;Surname42;Patronymic42;City42;Country42"] ∧
    (randint 0 8000 mock42).1 = 0 ∧
    (randint 1 1000000 (randint 0 8000 mock42).2).1 = 42 ∧
    (randint 1 1000000 (randint 1 1000000 (randint 0 8000 mock42).2).2).1 = 42 ∧
    (randint 1 1000000 (randint 1 1000000 (randint 1 1000000
      (randint 0 8000 mock42).2).2).2).1 = 42 ∧
    (randint 1 1000 (randint 1 1000000 (randint 1 1000000 (randint 1 1000000
      (randint 0 8000 mock42).2).2).2).2).1 = 42 ∧
    (randint 1 100 (randint 1 1000 (randint 1 1000000 (randint 1 1000000
      (randint 1 1000000 (randint 0 8000 mock42).2).2).2).2).2).1 = 42 := by
  decide

/-- C6: running the tool twice against the same output path leaves the file
holding exactly the most recent run's content — the first run's content and
any prior content at that path are discarded, and no other path changes. -/
theorem claim_C6_overwrite (fs : String → Option String) (n1 n2 : Nat)
    (g1 g2 : Gen) :
    runFS n2 g2 (runFS n1 g1 fs) csvPath = some (fileContent n2 g2) ∧
    ∀ p, p ≠ csvPath → runFS n2 g2 (runFS n1 g1 fs) p = fs p := by
  constructor
  · simp [runFS]
  · intro p hp
    simp [runFS, hp]

/-- C6 witness: two runs over an initially empty file system, checked at
the output path and at an unrelated path. -/
theorem claim_C6_witness :
    runFS 2 mock42 (runFS 1 mock42 fun _ => none) csvPath =
      some (fileContent 2 mock42) ∧
    runFS 2 mock42 (runFS 1 mock42 fun _ => none) "other" = none :=
  ⟨(claim_C6_overwrite (fun _ => none) 1 2 mock42 mock42).1,
   (claim_C6_overwrite (fun _ => none) 1 2 mock42 mock42).2 "other" (by decide)⟩

/-- C7: the completion message is printed exactly when the open succeeded
and every one of the `n` row writes succeeded (so an I/O failure aborts the
run without the message), and a run with `n = 0` leaves an empty zero-line
file and still prints the message. -/
theorem claim_C7_completion (openOk : Bool) (ok : Nat → Bool) (n : Nat) (g : Gen) :
    ((runWithFailures openOk ok n g).2 = [completionMsg] ↔
      (openOk = true ∧ ∀ k, k < n → ok k = true)) ∧
    runWithFailures true ok 0 g = (some "", [completionMsg]) := by
  refine ⟨?_, rfl⟩
  cases openOk with
  | false =>
      constructor
      · intro hmsg
        exact absurd hmsg (by simp [runWithFailures])
      · rintro ⟨h, -⟩
        cases h
  | true =>
      have hsnd : (runWithFailures true ok n g).2 =
          if (writeLoop ok n 0 g "").2 then [completionMsg] else [] := rfl
      rw [hsnd]
      cases hl : (writeLoop ok n 0 g "").2 with
      | false =>
          rw [if_neg (by simp [hl])]
          constructor
          · intro h
            exact absurd h (by simp)
          · rintro ⟨-, hall⟩
            have htrue : (writeLoop ok n 0 g "").2 = true :=
              (writeLoop_snd ok n 0 g "").mpr fun k hk => by simpa using hall k hk
            rw [htrue] at hl
            cases hl
      | true =>
          rw [if_pos rfl]
          constructor
          · intro _
            exact ⟨rfl, fun k hk => by simpa using (writeLoop_snd ok n 0 g "").mp hl k hk⟩
          · intro _
            rfl

/-- C7 witness: a fully successful two-record run and the zero-record run,
at concrete arguments. -/
theorem claim_C7_witness :
    ((runWithFailures true (fun _ => true) 2 mock42).2 = [completionMsg] ↔
      (true = true ∧ ∀ k, k < 2 → (fun _ => true : Nat → Bool) k = true)) ∧
    runWithFailures true (fun _ => true) 0 mock42 = (some "", [completionMsg]) :=
  claim_C7_completion true (fun _ => true) 2 mock42

end DataLink
